import Mathlib

/-!
Verification development for the beet-pointers / bolt-expressions compilation
core.  The repository contains two revisions of the expression compiler:

* `pointers/` — the older revision, with a global rule-registry `Optimizer`
  (rules `temp_var_collapsing`, `constant_to_literal_replacement`,
  `print_empty`) over a frozen-dataclass IR of `Operation(former, latter)`
  nodes whose operands are `ScoreSource` / `ConstantScoreSource` /
  `TempScoreSource` / `DataSource` values (an operand may also become a plain
  `int` after constant-to-literal replacement).

* `bolt_expressions/` — the newer revision: generator-based `unroll` methods
  on `Operation` subclasses (`operations.py`), a per-session `Expression`
  facade with `TempScoreManager` / `ConstScoreManager` allocators (`node.py`),
  typed `DataSource` accessor checking (`sources.py`), and an AST-level
  constant-score sanitizer (`ast.py`).

Each Python fragment is embedded shallowly below: classes become inductive
types or structures, methods become executable functions, the mutated
class-level temp counter becomes explicit state passing, and raised
`TypeError`s become `Except.error` values.
-/

namespace Pointers

/-- Kinds of IR operations of the `pointers` revision (`operations.py`):
`Set`, `Add`, `Subtract`, `Multiply`, `Divide`, `Modulus`, `If`, `Equal`,
`NotEqual`, `LessThan`, `GreaterThan`, `LessThanOrEqualTo`,
`GreaterThanOrEqualTo` are the concrete `Operation` subclasses. -/
inductive POpKind where
  | set | add | sub | mul | div | mod
  | ifOp | eqOp | neOp | ltOp | gtOp | leOp | geOp
  deriving DecidableEq, Repr

/-- Operand values of the `pointers` revision.  `score` is a plain
`ScoreSource(scoreholder, objective)`; `const v` is a
`ConstantScoreSource` made by `ConstantScoreSource.create(v)`, whose holder
is `"$" ++ toString v` and objective `"constant"` (so recovering `v` from
`scoreholder[1:]` as `constant_to_literal_replacement` does is exact);
`temp n` is a `TempScoreSource` with holder `"$i" ++ toString n`; `data` is
a `DataSource(target, path)`; `lit v` is a plain Python `int` operand as
produced by `constant_to_literal_replacement`.  The `type(x) is ...` checks
of the optimizer are exact-class tests, matched here by constructor. -/
inductive PSrc where
  | score (holder obj : String)
  | const (v : Int)
  | temp (n : Nat)
  | data (target path : String)
  | lit (v : Int)
  deriving DecidableEq, Repr

/-- A three-address IR node `Operation(former, latter)` of the `pointers`
revision. -/
structure POp where
  kind : POpKind
  former : PSrc
  latter : PSrc
  deriving DecidableEq, Repr

/-- Index of a `TempScoreSource` operand (`type(x) is TempScoreSource`). -/
def tempIdx : PSrc → Option Nat
  | .temp n => some n
  | _ => none

/-- Value of a `ConstantScoreSource` operand
(`type(x) is ConstantScoreSource`). -/
def constVal : PSrc → Option Int
  | .const v => some v
  | _ => none

/-- Lookup in the replacement map of `temp_var_collapsing`.  The Python code
uses a `dict` keyed by temp sources; we model it as an association list where
the most recent assignment is at the head, so the first match wins. -/
def lookupT : List (Nat × Nat) → Nat → Option Nat
  | [], _ => none
  | (k, v) :: rest, t => if k = t then some v else lookupT rest t

/-- A TOTALIZED variant of `get_replaced` of `temp_var_collapsing`
(`optimizer.py`), kept only so that the rule-threading statement can speak
about the registered rules as plain functions: chains in an acyclic map
visit distinct keys, so fuel `map.length + 1` resolves every chain the
Python code resolves, but on a self-mapped key the Python code recurses
without bound (`RecursionError`) while this version returns the looped
key.  The faithful partial model of `get_replaced` — and the one every
idempotence statement is settled against — is `getReplacedP` below, which
returns `none` exactly where the source diverges. -/
def getReplaced (map : List (Nat × Nat)) : Nat → Nat → Nat
  | 0, t => t
  | fuel + 1, t =>
    match lookupT map t with
    | none => t
    | some u => getReplaced map fuel u

/-- `get_replaced` applied to an arbitrary operand: `map.get(source)` is
`None` for every non-`TempScoreSource` operand, which is then returned
unchanged. -/
def replSrc (map : List (Nat × Nat)) : PSrc → PSrc
  | .temp t => .temp (getReplaced map (map.length + 1) t)
  | s => s

/-- Loop body of `temp_var_collapsing`: a `Set` whose `former` and `latter`
are both exactly `TempScoreSource` is absorbed into the replacement map
(`map[node.former] = get_replaced(node.latter)`); every other node is
yielded with both operands run through `get_replaced`. -/
def tvcGo (map : List (Nat × Nat)) : List POp → List POp
  | [] => []
  | n :: rest =>
    match n.kind, tempIdx n.former, tempIdx n.latter with
    | .set, some a, some b =>
      tvcGo ((a, getReplaced map (map.length + 1) b) :: map) rest
    | _, _, _ =>
      ⟨n.kind, replSrc map n.former, replSrc map n.latter⟩ :: tvcGo map rest

/-- The registered rule `temp_var_collapsing` (`optimizer.py`). -/
def temp_var_collapsing (nodes : List POp) : List POp :=
  tvcGo [] nodes

/-- One step of `constant_to_literal_replacement`: for a node that is a
`Set`, `Add` or `Subtract` (an `isinstance` check; these classes have no
further subclasses) whose `latter` is exactly a `ConstantScoreSource`, the
holder minus its `$` sigil is parsed back to the integer and substituted as
a literal operand. -/
def ctlNode (n : POp) : POp :=
  match constVal n.latter with
  | some v =>
    if n.kind = .set ∨ n.kind = .add ∨ n.kind = .sub then
      ⟨n.kind, n.former, .lit v⟩
    else n
  | none => n

/-- The registered rule `constant_to_literal_replacement` (`optimizer.py`). -/
def constant_to_literal_replacement (nodes : List POp) : List POp :=
  nodes.map ctlNode

/-- The registered rule `print_empty` (`optimizer.py`): yields every node
unchanged (its print statement is commented out). -/
def print_empty (nodes : List POp) : List POp :=
  nodes

/-- A rewrite rule, as in `Rule = Callable[[Iterable[Operation]], ...]`. -/
def Rule := List POp → List POp

/-- `Optimizer.rules`: the class-level list populated by the `@Optimizer.rule`
decorator, in registration (source-file) order. -/
def Optimizer.rules : List Rule :=
  [temp_var_collapsing, constant_to_literal_replacement, print_empty]

/-- `Optimizer.optimize`: thread the node list through every rule, in order
(`for rule in cls.rules: nodes = rule(nodes)`), yielding the final list. -/
def Optimizer.optimize (rules : List Rule) (nodes : List POp) : List POp :=
  rules.foldl (fun ns r => r ns) nodes

/-- A node that `temp_var_collapsing` absorbs into its replacement map: a
`Set` whose operands are both exactly `TempScoreSource`s. -/
def IsSTT (n : POp) : Prop :=
  n.kind = .set ∧ (tempIdx n.former).isSome ∧ (tempIdx n.latter).isSome

/-- No node of the list is a `Set` between two temp scores. -/
def NoSTT (l : List POp) : Prop := ∀ n ∈ l, ¬ IsSTT n

/-- No `Set`/`Add`/`Subtract` node of the list has a `ConstantScoreSource`
as its `latter` operand. -/
def NoConstSAS (l : List POp) : Prop :=
  ∀ n ∈ l, (n.kind = .set ∨ n.kind = .add ∨ n.kind = .sub) → constVal n.latter = none

/-- `constant_to_literal_replacement` keeps each node's operation kind. -/
theorem ctlNode_kind (n : POp) : (ctlNode n).kind = n.kind := by
  unfold ctlNode
  cases constVal n.latter with
  | none => rfl
  | some v => dsimp only; split <;> rfl

/-- After `constant_to_literal_replacement`, a `Set`/`Add`/`Subtract` node
no longer carries a constant `latter`. -/
theorem ctlNode_clears (n : POp)
    (hk : n.kind = .set ∨ n.kind = .add ∨ n.kind = .sub) :
    constVal (ctlNode n).latter = none := by
  unfold ctlNode
  cases hv : constVal n.latter with
  | none => exact hv
  | some v => dsimp only; rw [if_pos hk]; rfl

theorem ctlNode_id_of_none (n : POp) (h : constVal n.latter = none) :
    ctlNode n = n := by
  unfold ctlNode; rw [h]

theorem ctlNode_id_of_kind (n : POp)
    (h : ¬(n.kind = .set ∨ n.kind = .add ∨ n.kind = .sub)) :
    ctlNode n = n := by
  unfold ctlNode
  cases constVal n.latter with
  | none => rfl
  | some v => dsimp only; rw [if_neg h]

/-- `constant_to_literal_replacement` never creates a collapsible `Set`:
it only replaces a constant `latter` by an integer literal. -/
theorem ctlNode_stt (n : POp) (h : IsSTT (ctlNode n)) : IsSTT n := by
  unfold ctlNode at h
  cases hv : constVal n.latter with
  | none => rw [hv] at h; exact h
  | some v =>
    rw [hv] at h; dsimp only at h
    split at h
    · rcases h with ⟨-, -, hl⟩; cases hl
    · exact h

/-- After `constant_to_literal_replacement`, every constant operand of a
`Set`/`Add`/`Subtract` node has been turned into a literal. -/
theorem ctl_noConstSAS (ns : List POp) :
    NoConstSAS (constant_to_literal_replacement ns) := by
  intro m hm hk
  obtain ⟨n, _, rfl⟩ := List.mem_map.mp hm
  rw [ctlNode_kind] at hk
  exact ctlNode_clears n hk

/-- On a list with no constant `latter` in `Set`/`Add`/`Subtract` nodes,
`constant_to_literal_replacement` is the identity. -/
theorem ctl_id_of_noConstSAS (ns : List POp) (h : NoConstSAS ns) :
    constant_to_literal_replacement ns = ns := by
  induction ns with
  | nil => rfl
  | cons n rest ih =>
    unfold constant_to_literal_replacement at ih ⊢
    simp only [List.map_cons]
    have hn : ctlNode n = n := by
      by_cases hk : n.kind = .set ∨ n.kind = .add ∨ n.kind = .sub
      · exact ctlNode_id_of_none n (h n (List.mem_cons_self n rest) hk)
      · exact ctlNode_id_of_kind n hk
    rw [hn, ih (fun m hm => h m (List.mem_cons_of_mem n hm))]

theorem ctl_preserves_noSTT (ns : List POp) (h : NoSTT ns) :
    NoSTT (constant_to_literal_replacement ns) := by
  intro m hm hstt
  obtain ⟨n, hn, rfl⟩ := List.mem_map.mp hm
  exact h n hn (ctlNode_stt n hstt)

/-- C4: `Optimizer.optimize` applies every registered rule to the operation
list exactly once each, in registration order, threading the output of each
rule into the next and yielding the output of the last rule: on the
registered rules this is exactly `print_empty` after
`constant_to_literal_replacement` after `temp_var_collapsing`, and for any
rule list the loop peels off rules one at a time from the front, applying
none of them twice. -/
theorem optimize_threads_rules_in_order :
    (∀ ns, Optimizer.optimize Optimizer.rules ns
        = print_empty (constant_to_literal_replacement (temp_var_collapsing ns)))
    ∧ (∀ (r : Rule) (rs : List Rule) (ns),
        Optimizer.optimize (r :: rs) ns = Optimizer.optimize rs (r ns))
    ∧ (∀ ns, Optimizer.optimize [] ns = ns) :=
  ⟨fun _ => rfl, fun _ _ _ => rfl, fun _ => rfl⟩

/-- The faithful partial model of `get_replaced` (`optimizer.py`): follow
the replacement chain to the very last source.  The Python recursion
terminates exactly when the chain from `t` reaches a non-key of the map,
which for the finite map happens within `map.length` hops unless the chain
enters a loop; with fuel `map.length + 1` this function therefore returns
`some r` exactly when the source returns `r`, and `none` exactly when the
source recurses without bound and raises `RecursionError`. -/
def getReplacedP (map : List (Nat × Nat)) : Nat → Nat → Option Nat
  | 0, _ => none
  | fuel + 1, t =>
    match lookupT map t with
    | none => some t
    | some u => getReplacedP map fuel u

/-- Partial `get_replaced` on an arbitrary operand: non-temp operands are
returned unchanged (`map.get(source)` is `None`); a temp follows the chain
and propagates the divergence of `get_replaced`. -/
def replSrcP (map : List (Nat × Nat)) : PSrc → Option PSrc
  | .temp t => (getReplacedP map (map.length + 1) t).map .temp
  | s => some s

/-- Loop body of `temp_var_collapsing` over the partial `get_replaced`:
`none` models the `RecursionError` escaping the generator, which aborts the
whole `optimize` run with no output list. -/
def tvcGoP (map : List (Nat × Nat)) : List POp → Option (List POp)
  | [] => some []
  | n :: rest =>
    match n.kind, tempIdx n.former, tempIdx n.latter with
    | .set, some a, some b =>
      match getReplacedP map (map.length + 1) b with
      | none => none
      | some r => tvcGoP ((a, r) :: map) rest
    | _, _, _ =>
      match replSrcP map n.former, replSrcP map n.latter with
      | some f, some l => (tvcGoP map rest).map (fun out => ⟨n.kind, f, l⟩ :: out)
      | _, _ => none

/-- `temp_var_collapsing` over the partial `get_replaced`. -/
def temp_var_collapsingP (nodes : List POp) : Option (List POp) :=
  tvcGoP [] nodes

/-- A rule of the partial pipeline: `none` is a raised exception. -/
def RuleP := List POp → Option (List POp)

/-- The registered rules as partial functions:
`constant_to_literal_replacement` and `print_empty` never raise. -/
def Optimizer.rulesP : List RuleP :=
  [temp_var_collapsingP,
   fun ns => some (constant_to_literal_replacement ns),
   fun ns => some (print_empty ns)]

/-- `Optimizer.optimize` over the partial rules: an exception raised by any
rule propagates out of the generator chain, so the caller receives no list
at all. -/
def Optimizer.optimizeP (rules : List RuleP) (nodes : List POp) :
    Option (List POp) :=
  rules.foldl (fun acc r => acc.bind r) (some nodes)

/-- C5 counterexample: on `[Set($i0, $i0), Add(@s obj, $i0)]` the
collapsing map acquires the self-loop `$i0 ↦ $i0`, so the next
`get_replaced($i0)` recurses without bound: the source raises
`RecursionError` and `optimize(L)` yields no list at all — the claim's
unrestricted equation `optimize(optimize(L)) == optimize(L)`, which
requires `optimize(L)` to be a list, fails at this input. -/
theorem optimize_raises_on_self_loop :
    Optimizer.optimizeP Optimizer.rulesP
        [⟨.set, .temp 0, .temp 0⟩, ⟨.add, .score "@s" "obj", .temp 0⟩] = none
    ∧ (Optimizer.optimizeP Optimizer.rulesP
        [⟨.set, .temp 0, .temp 0⟩, ⟨.add, .score "@s" "obj", .temp 0⟩]).isSome
        = false := by
  constructor
  · rfl
  · rfl

theorem replSrcP_nil (s : PSrc) : replSrcP [] s = some s := by
  cases s <;> rfl

/-- When partial `get_replaced` succeeds on an operand it preserves being
(or not being) a `TempScoreSource`. -/
theorem replSrcP_isSome {map : List (Nat × Nat)} {s s' : PSrc}
    (h : replSrcP map s = some s') :
    (tempIdx s').isSome = (tempIdx s).isSome := by
  cases s with
  | temp t =>
    simp only [replSrcP] at h
    obtain ⟨r, -, rfl⟩ := Option.map_eq_some'.mp h
    rfl
  | score a b => obtain rfl := Option.some.inj h; rfl
  | const v => obtain rfl := Option.some.inj h; rfl
  | data t p => obtain rfl := Option.some.inj h; rfl
  | lit v => obtain rfl := Option.some.inj h; rfl

/-- Every list the partial `temp_var_collapsing` returns contains no `Set`
between two temp scores: collapsible `Set`s are consumed and operand
replacement cannot create one. -/
theorem tvcGoP_noSTT (ns : List POp) :
    ∀ (map : List (Nat × Nat)) (out : List POp),
      tvcGoP map ns = some out → NoSTT out := by
  induction ns with
  | nil =>
    intro map out h
    obtain rfl := Option.some.inj h
    intro n hn
    cases hn
  | cons n rest ih =>
    intro map out h
    rw [tvcGoP] at h
    split at h
    · split at h
      · cases h
      · exact ih _ _ h
    · next h3 =>
      split at h
      · next hf hl =>
        obtain ⟨out', hout', rfl⟩ := Option.map_eq_some'.mp h
        intro m hm
        rcases List.mem_cons.mp hm with rfl | hmem
        · rintro ⟨hk, hft, hlt⟩
          rw [replSrcP_isSome hf] at hft
          rw [replSrcP_isSome hl] at hlt
          obtain ⟨a, ha⟩ := Option.isSome_iff_exists.mp hft
          obtain ⟨b, hb⟩ := Option.isSome_iff_exists.mp hlt
          exact h3 a b hk ha hb
        · exact ih _ _ hout' m hmem
      · cases h

/-- On a list with no collapsible `Set`, the partial `temp_var_collapsing`
terminates and is the identity: the replacement map stays empty and every
node is re-yielded unchanged. -/
theorem tvcGoP_id_of_noSTT (ns : List POp) (h : NoSTT ns) :
    tvcGoP [] ns = some ns := by
  induction ns with
  | nil => rfl
  | cons n rest ih =>
    rw [tvcGoP]
    split
    · next hk hf hl =>
      exact absurd ⟨hk, by rw [hf]; rfl, by rw [hl]; rfl⟩
        (h n (List.mem_cons_self n rest))
    · rw [replSrcP_nil, replSrcP_nil]
      dsimp only
      rw [ih (fun m hm => h m (List.mem_cons_of_mem n hm))]
      rfl

/-- C5 amended: the pipeline is idempotent on every list it terminates on:
whenever `optimize(L)` actually yields a list `M` (it raises
`RecursionError` instead exactly when the collapsing map self-loops),
running the pipeline on `M` yields `M` again.  The terminating first pass
leaves no `Set` between two temp scores (so the second
`temp_var_collapsing` pass keeps an empty replacement map, terminates and
changes nothing) and no constant `latter` on a `Set`/`Add`/`Subtract` node
(so the second `constant_to_literal_replacement` pass changes nothing
either). -/
theorem optimize_idempotent_of_terminating (L M : List POp)
    (h : Optimizer.optimizeP Optimizer.rulesP L = some M) :
    Optimizer.optimizeP Optimizer.rulesP M = some M := by
  have hred : ∀ N, Optimizer.optimizeP Optimizer.rulesP N
      = (temp_var_collapsingP N).map
          (fun out => print_empty (constant_to_literal_replacement out)) := by
    intro N
    cases htv : temp_var_collapsingP N with
    | none => simp [Optimizer.optimizeP, Optimizer.rulesP, htv]
    | some K => simp [Optimizer.optimizeP, Optimizer.rulesP, htv]
  rw [hred] at h
  obtain ⟨N, hN, rfl⟩ := Option.map_eq_some'.mp h
  have hstt : NoSTT N := tvcGoP_noSTT L [] N hN
  have hstt2 : NoSTT (print_empty (constant_to_literal_replacement N)) :=
    ctl_preserves_noSTT N hstt
  have hsas : NoConstSAS (print_empty (constant_to_literal_replacement N)) :=
    ctl_noConstSAS N
  rw [hred]
  rw [show temp_var_collapsingP (print_empty (constant_to_literal_replacement N))
        = some (print_empty (constant_to_literal_replacement N)) from
      tvcGoP_id_of_noSTT _ hstt2]
  rw [Option.map_some']
  rw [show constant_to_literal_replacement
          (print_empty (constant_to_literal_replacement N))
        = print_empty (constant_to_literal_replacement N) from
      ctl_id_of_noConstSAS _ hsas]
  rfl

/-- C5 witness: a terminating two-node run — the first pass collapses
`Set($s0, $s1)` and rewrites the `Add` to use `$s1`; the second pass
returns that list unchanged. -/
theorem optimize_idempotent_of_terminating_witness :
    Optimizer.optimizeP Optimizer.rulesP
        [⟨.set, .temp 0, .temp 1⟩, ⟨.add, .score "@s" "obj", .temp 0⟩]
      = some [⟨.add, .score "@s" "obj", .temp 1⟩]
    ∧ Optimizer.optimizeP Optimizer.rulesP [⟨.add, .score "@s" "obj", .temp 1⟩]
      = some [⟨.add, .score "@s" "obj", .temp 1⟩] :=
  ⟨by decide,
   optimize_idempotent_of_terminating
     [⟨.set, .temp 0, .temp 1⟩, ⟨.add, .score "@s" "obj", .temp 0⟩]
     [⟨.add, .score "@s" "obj", .temp 1⟩] (by decide)⟩

end Pointers

namespace BoltExpr

/-- A single NBT path step, as in `nbtlib`: `NamedKey`, `ListIndex` or
`CompoundMatch` (the compound payload is abstracted to its textual form). -/
inductive Accessor where
  | namedKey (key : String)
  | listIndex (i : Int)
  | compoundMatch (compound : String)
  deriving DecidableEq, Repr

/-- Kinds of the `Operation` subclasses of `bolt_expressions/operations.py`
that inherit the generic `Operation.unroll`: the score operations `Add`,
`Subtract`, `Multiply`, `Divide`, `Modulus`, `Min`, `Max` and the wrappers
`If`, `LessThan`, `GreaterThan`, `LessThanOrEqualTo`,
`GreaterThanOrEqualTo`. -/
inductive BOpKind where
  | add | sub | mul | div | mod | minOp | maxOp
  | ifOp | ltOp | gtOp | leOp | geOp
  deriving DecidableEq, Repr

/-- Expression nodes of the `bolt_expressions` revision.  Leaves are
`ScoreSource(holder, objective)`, `TempScoreSource` (identified by its
allocation index), `DataSource(target, path)` and `Literal(value)`;
internal nodes are the generic binary `Operation`s, `Insert` (with its
`index` field; `Append`/`Prepend` are `Insert`s created with index -1/0),
`Set` and `Merge`. -/
inductive Node where
  | score (holder obj : String)
  | temp (n : Nat)
  | data (target : String) (path : List Accessor)
  | lit (v : Int)
  | binop (k : BOpKind) (former latter : Node)
  | insertOp (former : Node) (index : Int) (latter : Node)
  | setOp (former latter : Node)
  | mergeOp (former latter : Node)
  deriving DecidableEq, Repr

/-- `isinstance(x, Operation)`: `Operation` and its subclasses are the
internal nodes; sources and literals are not operations. -/
def isOperation : Node → Bool
  | .binop .. => true
  | .insertOp .. => true
  | .setOp .. => true
  | .mergeOp .. => true
  | _ => false

/-- `isinstance(x, TempScoreSource)`, returning the temp index. -/
def tempIdxN : Node → Option Nat
  | .temp n => some n
  | _ => none

/-- `isinstance(x, (DataSource, Literal))`, the guard of `Insert.unroll`. -/
def isDataOrLit : Node → Bool
  | .data .. => true
  | .lit .. => true
  | _ => false

/-- `isinstance(x, DataSource)`, the guard of `Set.unroll`. -/
def isData : Node → Bool
  | .data .. => true
  | _ => false

/-- Modelled from the spec: `self.former[self.index]` in `Insert.unroll`
subscripts a data source by an integer, which appends a `ListIndex`
accessor to its path (`Set(data[idx], tail_value)` in the spec); the
middle-revision `DataSource.__getitem__` itself is not under `src/`. -/
def dataIndex (d : Node) (i : Int) : Node :=
  match d with
  | .data t p => .data t (p ++ [.listIndex i])
  | x => x

/-- The generator-based `unroll` methods of `operations.py`, with the
class-level temp counter made explicit.  Each Python generator yields a
sequence of operation nodes followed by the tail operand holding the node's
value; we return `(yielded operations, tail, counter)`:

* sources and literals yield themselves (`ExpressionNode.unroll`);
* a generic binary `Operation` unrolls `former` then `latter`, reuses the
  former's tail as destination when it is already a `TempScoreSource` and
  otherwise allocates a fresh temp and emits `Set(temp, former_tail)`, then
  emits itself with `former`/`latter` replaced (`Operation.unroll`);
* `Insert` yields itself when its `latter` is a `DataSource` or `Literal`,
  otherwise unrolls `latter`, yields itself with the placeholder
  `Literal(0)` and then `Set(former[index], tail)` (`Insert.unroll`);
* `Set` first resets the temp counter (`TempScoreSource.count = -1`, i.e.
  the next allocated temp is number 0), emits `Set(former, latter)` directly
  for a `DataSource` right-hand side and otherwise unrolls it
  (`Set.unroll`);
* `Merge` yields itself (`Merge.unroll`). -/
def unroll : Node → Nat → List Node × Node × Nat
  | .score h o, c => ([], .score h o, c)
  | .temp n, c => ([], .temp n, c)
  | .data t p, c => ([], .data t p, c)
  | .lit v, c => ([], .lit v, c)
  | .binop k a b, c =>
    let ra := unroll a c
    let rb := unroll b ra.2.2
    match ra.2.1 with
    | .temp n =>
      (ra.1 ++ rb.1 ++ [.binop k (.temp n) rb.2.1], .temp n, rb.2.2)
    | fv =>
      (ra.1 ++ rb.1 ++ [.setOp (.temp rb.2.2) fv, .binop k (.temp rb.2.2) rb.2.1],
        .temp rb.2.2, rb.2.2 + 1)
  | .insertOp d i v, c =>
    if isDataOrLit v then ([], .insertOp d i v, c)
    else
      let rv := unroll v c
      (rv.1 ++ [.insertOp d i (.lit 0)], .setOp (dataIndex d i) rv.2.1, rv.2.2)
  | .setOp lhs rhs, _ =>
    if isData rhs then ([], .setOp lhs rhs, 0)
    else
      let rr := unroll rhs 0
      (rr.1, .setOp lhs rr.2.1, rr.2.2)
  | .mergeOp a b, c => ([], .mergeOp a b, c)

/-- The claim's reading of binary-operation unrolling, stated from the
spec's words: emit the unrolled operations of the former operand, then
those of the latter; reuse the former's tail as destination when it is
already a `TempScore`, otherwise allocate a fresh `TempScore` `t` and emit
`Set(t, former_tail)`; finally emit the operation with destination `t`,
whose tail is `t`. -/
def specBinopUnroll (k : BOpKind) (a b : Node) (c : Nat) :
    List Node × Node × Nat :=
  let (opsA, ta, c1) := unroll a c
  let (opsB, tb, c2) := unroll b c1
  match tempIdxN ta with
  | some n => (opsA ++ opsB ++ [.binop k (.temp n) tb], .temp n, c2)
  | none =>
    (opsA ++ opsB ++ [.setOp (.temp c2) ta, .binop k (.temp c2) tb],
      .temp c2, c2 + 1)

/-- C1: for every binary operation node, `unroll` emits the former
operand's unrolled operations, then the latter's, reuses the former's tail
as destination exactly when it is already a `TempScore` (otherwise a fresh
temp is allocated and `Set(t, former_tail)` is emitted), and finally emits
the operation targeting that temp, which becomes the node's tail; in
particular the tail of every unrolled binary operation is a `TempScore`. -/
theorem binop_unroll_spec (k : BOpKind) (a b : Node) (c : Nat) :
    unroll (.binop k a b) c = specBinopUnroll k a b c
    ∧ (tempIdxN (unroll (.binop k a b) c).2.1).isSome = true := by
  rcases ha : unroll a c with ⟨opsA, ta, c1⟩
  rcases hb : unroll b c1 with ⟨opsB, tb, c2⟩
  constructor
  · simp only [unroll, specBinopUnroll, ha]
    simp only [hb]
    cases ta <;> simp [tempIdxN]
  · simp only [unroll, ha]
    simp only [hb]
    cases ta <;> simp [tempIdxN]

/-- `TempScoreManager` of `node.py`: an objective plus an integer counter
starting at 0. -/
structure TempScoreManager where
  objective : String
  counter : Nat
  deriving DecidableEq, Repr

/-- `TempScoreManager.__call__`: return `("$s" + counter, objective)` and
increment the counter. -/
def TempScoreManager.call (m : TempScoreManager) :
    (String × String) × TempScoreManager :=
  (("$s" ++ toString m.counter, m.objective), { m with counter := m.counter + 1 })

/-- `TempScoreManager.reset`: zero the counter. -/
def TempScoreManager.reset (m : TempScoreManager) : TempScoreManager :=
  { m with counter := 0 }

/-- The temp-allocation part of `Expression.resolve` (`node.py`): reset the
temp-score manager, then unroll the node with the reset counter.  The
optimizer and serializer this revision feeds the result to live in modules
that are not part of the sources. -/
def resolveUnrolled (m : TempScoreManager) (node : Node) :
    List Node × Node × Nat :=
  unroll node m.reset.counter

/-- C2: `resolve` resets the temp counter to zero before unrolling, so the
unrolling result never depends on the counter left by earlier resolve
calls, and the first temp holder allocated after the reset is `"$s0"`. -/
theorem resolve_resets_temp_counter :
    (∀ m : TempScoreManager, m.reset.counter = 0)
    ∧ (∀ m : TempScoreManager, m.reset.call.1 = ("$s0", m.objective))
    ∧ (∀ (m : TempScoreManager) (node : Node),
        resolveUnrolled m node = unroll node 0) :=
  ⟨fun _ => rfl,
   fun m => by
    have h : ("$s" ++ toString (0 : Nat)) = "$s0" := by decide
    simp [TempScoreManager.call, TempScoreManager.reset, h],
   fun _ _ => rfl⟩

/-- `Operation.create` (`operations.py`): non-node arguments are wrapped as
literals by the host boundary; on nodes it builds the dataclass. -/
def Operation.create (k : BOpKind) (former latter : Node) : Node :=
  .binop k former latter

/-- `Add.create`: if the former operand is not an `Operation` while the
latter is, swap them. -/
def Add.create (former latter : Node) : Node :=
  if !isOperation former && isOperation latter then
    Operation.create .add latter former
  else Operation.create .add former latter

/-- `Multiply.create`: same swap as `Add.create`. -/
def Multiply.create (former latter : Node) : Node :=
  if !isOperation former && isOperation latter then
    Operation.create .mul latter former
  else Operation.create .mul former latter

/-- `Subtract` has no `create` override: it inherits `Operation.create`. -/
def Subtract.create (former latter : Node) : Node :=
  Operation.create .sub former latter

/-- `Divide` has no `create` override. -/
def Divide.create (former latter : Node) : Node :=
  Operation.create .div former latter

/-- `Modulus` has no `create` override. -/
def Modulus.create (former latter : Node) : Node :=
  Operation.create .mod former latter

/-- `Min` has no `create` override. -/
def Min.create (former latter : Node) : Node :=
  Operation.create .minOp former latter

/-- `Max` has no `create` override. -/
def Max.create (former latter : Node) : Node :=
  Operation.create .maxOp former latter

/-- C6: only the commutative `Add` and `Multiply` swap their arguments, and
they do so exactly when the former is not an `Operation` while the latter
is; `Subtract`, `Divide`, `Modulus`, `Min` and `Max` never swap. -/
theorem commutative_create_swaps (f l : Node) :
    ((isOperation f = false ∧ isOperation l = true) →
      Add.create f l = .binop .add l f ∧ Multiply.create f l = .binop .mul l f)
    ∧ (¬(isOperation f = false ∧ isOperation l = true) →
      Add.create f l = .binop .add f l ∧ Multiply.create f l = .binop .mul f l)
    ∧ Subtract.create f l = .binop .sub f l
    ∧ Divide.create f l = .binop .div f l
    ∧ Modulus.create f l = .binop .mod f l
    ∧ Min.create f l = .binop .minOp f l
    ∧ Max.create f l = .binop .maxOp f l := by
  refine ⟨fun h => ?_, fun h => ?_, rfl, rfl, rfl, rfl, rfl⟩
  · obtain ⟨hf, hl⟩ := h
    constructor <;> simp [Add.create, Multiply.create, Operation.create, hf, hl]
  · have hb : (!isOperation f && isOperation l) = false := by
      cases hf : isOperation f <;> cases hl : isOperation l <;> simp_all
    constructor <;> simp [Add.create, Multiply.create, Operation.create, hb]

/-- C6 witness: concrete swaps and non-swaps.  `Add` over a source and an
operation swaps; over two sources it does not; `Min` never swaps even with
an operation on the right. -/
theorem commutative_create_swaps_witness :
    (Add.create (.score "a" "o") (.binop .add (.lit 1) (.lit 2))
        = .binop .add (.binop .add (.lit 1) (.lit 2)) (.score "a" "o"))
    ∧ (Add.create (.score "a" "o") (.lit 3) = .binop .add (.score "a" "o") (.lit 3))
    ∧ (Min.create (.score "a" "o") (.binop .add (.lit 1) (.lit 2))
        = .binop .minOp (.score "a" "o") (.binop .add (.lit 1) (.lit 2))) :=
  ⟨((commutative_create_swaps _ _).1 (by exact ⟨rfl, rfl⟩)).1,
   ((commutative_create_swaps _ _).2.1 (by simp [isOperation])).1,
   (commutative_create_swaps (.score "a" "o")
      (.binop .add (.lit 1) (.lit 2))).2.2.2.2.2.1⟩

/-- `Insert.create`: builds the `Insert` dataclass with its `index` field. -/
def Insert.create (former latter : Node) (index : Int) : Node :=
  .insertOp former index latter

/-- `Append.create`: an `Insert` created with `index=-1`. -/
def Append.create (former latter : Node) : Node :=
  Insert.create former latter (-1)

/-- `Prepend.create`: an `Insert` created with `index=0`. -/
def Prepend.create (former latter : Node) : Node :=
  Insert.create former latter 0

/-- C9: unrolling `Insert(data, idx, value)` emits the single `Insert`
unchanged when `value` is a `DataSource` or a `Literal`; otherwise it
unrolls `value`, emits the `Insert` with its `latter` replaced by the
placeholder `Literal(0)` and then `Set(data[idx], tail_value)`; `Append` is
an `Insert` created with index -1 and `Prepend` one with index 0. -/
theorem insert_unroll_spec (d : Node) (i : Int) (v : Node) (c : Nat) :
    (isDataOrLit v = true → unroll (.insertOp d i v) c = ([], .insertOp d i v, c))
    ∧ (isDataOrLit v = false →
        unroll (.insertOp d i v) c =
          ((unroll v c).1 ++ [.insertOp d i (.lit 0)],
            .setOp (dataIndex d i) (unroll v c).2.1, (unroll v c).2.2))
    ∧ Append.create d v = .insertOp d (-1) v
    ∧ Prepend.create d v = .insertOp d 0 v := by
  refine ⟨fun h => ?_, fun h => ?_, rfl, rfl⟩
  · simp [unroll, h]
  · simp [unroll, h]

/-- C9 witness: an `Insert` of a literal stays a single operation, an
`Insert` of a score unrolls into placeholder plus `Set`, and
`Append`/`Prepend` fix their indices. -/
theorem insert_unroll_spec_witness :
    (unroll (.insertOp (.data "ns:x" []) 3 (.lit 7)) 0
        = ([], .insertOp (.data "ns:x" []) 3 (.lit 7), 0))
    ∧ (unroll (.insertOp (.data "ns:x" []) 3 (.score "@s" "obj")) 0
        = ([.insertOp (.data "ns:x" []) 3 (.lit 0)],
            .setOp (.data "ns:x" [.listIndex 3]) (.score "@s" "obj"), 0))
    ∧ Append.create (.data "ns:x" []) (.lit 7) = .insertOp (.data "ns:x" []) (-1) (.lit 7)
    ∧ Prepend.create (.data "ns:x" []) (.lit 7) = .insertOp (.data "ns:x" []) 0 (.lit 7) :=
  ⟨(insert_unroll_spec (.data "ns:x" []) 3 (.lit 7) 0).1 rfl,
   (insert_unroll_spec (.data "ns:x" []) 3 (.score "@s" "obj") 0).2.1 rfl,
   (insert_unroll_spec (.data "ns:x" []) 3 (.lit 7) 0).2.2.1,
   (insert_unroll_spec (.data "ns:x" []) 3 (.lit 7) 0).2.2.2⟩

/-- `ConstScoreManager` of `node.py`: an objective plus a hash set of the
integers interned so far. -/
structure ConstScoreManager where
  objective : String
  constants : Finset Int
  deriving DecidableEq

/-- `ConstScoreManager.format`: the holder `"$" + str(value)`. -/
def ConstScoreManager.format (_ : ConstScoreManager) (v : Int) : String :=
  "$" ++ toString v

/-- `ConstScoreManager.create`: add the value to the constants set and
return the `(holder, objective)` pair. -/
def ConstScoreManager.create (m : ConstScoreManager) (v : Int) :
    (String × String) × ConstScoreManager :=
  ((m.format v, m.objective), { m with constants := insert v m.constants })

/-- `create` applied `n` times with the same value. -/
def ConstScoreManager.createN (m : ConstScoreManager) (v : Int) :
    Nat → ConstScoreManager
  | 0 => m
  | n + 1 => ((m.createN v n).create v).2

/-- Modelled from the spec: the `literal_to_constant_replacement` optimizer
rule of the newer revision lives in the `bolt_expressions.optimizer` module,
which is not under `src/`.  Per the spec, for every op whose `latter` is an
integer literal that the command grammar cannot encode directly (every op
kind outside `Set`/`Add`/`Sub`), a `ConstScore` is allocated for it via the
const allocator and the operand replaced. -/
def ltcrStep (m : ConstScoreManager) (n : Pointers.POp) :
    ConstScoreManager × Pointers.POp :=
  match n.latter with
  | .lit v =>
    if n.kind = .set ∨ n.kind = .add ∨ n.kind = .sub then (m, n)
    else ((m.create v).2, ⟨n.kind, n.former, .const v⟩)
  | _ => (m, n)

/-- Modelled from the spec: the full `literal_to_constant_replacement` pass
over an operation list, threading the const allocator. -/
def literal_to_constant_replacement (m : ConstScoreManager) :
    List Pointers.POp → ConstScoreManager × List Pointers.POp
  | [] => (m, [])
  | n :: rest =>
    let s := ltcrStep m n
    let r := literal_to_constant_replacement s.1 rest
    (r.1, s.2 :: r.2)

/-- A constant score with value `v` appears somewhere in the list. -/
def ConstOccurs (ops : List Pointers.POp) (v : Int) : Prop :=
  ∃ n ∈ ops, n.former = .const v ∨ n.latter = .const v

theorem ltcrStep_constants (m : ConstScoreManager) (n : Pointers.POp) :
    m.constants ⊆ (ltcrStep m n).1.constants := by
  obtain ⟨k, f, l⟩ := n
  cases l <;> simp only [ltcrStep]
  case lit v =>
    split
    · exact fun x hx => hx
    · exact fun x hx => Finset.mem_insert_of_mem hx
  all_goals exact fun x hx => hx

theorem ltcr_constants_mono (ops : List Pointers.POp) :
    ∀ m : ConstScoreManager,
      m.constants ⊆ (literal_to_constant_replacement m ops).1.constants := by
  induction ops with
  | nil => exact fun m => fun x hx => hx
  | cons n rest ih =>
    intro m
    exact (ltcrStep_constants m n).trans (ih (ltcrStep m n).1)

/-- The single-node effect of the replacement rule: the produced node either
is the input node, or carries a constant whose value was just interned. -/
theorem ltcrStep_occurs (m : ConstScoreManager) (n : Pointers.POp) (v : Int) :
    ((ltcrStep m n).2.former = .const v ∨ (ltcrStep m n).2.latter = .const v) →
    (n.former = .const v ∨ n.latter = .const v) ∨ v ∈ (ltcrStep m n).1.constants := by
  obtain ⟨k, f, l⟩ := n
  cases l <;> simp only [ltcrStep]
  case lit w =>
    split
    · exact fun h => .inl h
    · rintro (hf | hlat)
      · exact .inl (.inl hf)
      · cases hlat
        exact .inr (Finset.mem_insert_self _ _)
  all_goals exact fun h => .inl h

/-- C3 main recording lemma: starting from an operation list with no
constant operand (as `unroll` produces), every constant in the output of
`literal_to_constant_replacement` has its value in the final constants
set. -/
theorem ltcr_records (ops : List Pointers.POp) :
    ∀ m : ConstScoreManager, (∀ w, ¬ ConstOccurs ops w) →
      ∀ v, ConstOccurs (literal_to_constant_replacement m ops).2 v →
        v ∈ (literal_to_constant_replacement m ops).1.constants := by
  induction ops with
  | nil => rintro m _ v ⟨n, hn, -⟩; cases hn
  | cons n rest ih =>
    intro m hno v hocc
    obtain ⟨p, hp, hpv⟩ := hocc
    rw [literal_to_constant_replacement] at hp ⊢
    rcases List.mem_cons.mp hp with rfl | hmem
    · rcases ltcrStep_occurs m n v hpv with hold | hnew
      · exact absurd ⟨n, List.mem_cons_self n rest, hold⟩ (hno v)
      · exact ltcr_constants_mono rest (ltcrStep m n).1 hnew
    · exact ih (ltcrStep m n).1
        (fun w ⟨q, hq, hqv⟩ => hno w ⟨q, List.mem_cons_of_mem n hq, hqv⟩)
        v ⟨p, hmem, hpv⟩

/-- C3: constant holders are interned.  `create v` returns
`("$" ++ str v, objective)` and inserts `v` into the constants set; creating
the same value any number of times leaves exactly one entry for `v`; and
every constant score of value `v` in the output of the (spec-modelled)
literal-to-constant pass has `v` recorded in the final const set, provided
the input IR carries no constants yet. -/
theorem const_score_interning :
    (∀ (m : ConstScoreManager) (v : Int),
        (m.create v).1 = ("$" ++ toString v, m.objective))
    ∧ (∀ (m : ConstScoreManager) (v : Int),
        (m.create v).2.constants = insert v m.constants)
    ∧ (∀ (m : ConstScoreManager) (v : Int) (n : Nat),
        (m.createN v (n + 1)).constants = insert v m.constants
          ∧ ((m.createN v (n + 1)).constants.filter (· = v)).card = 1)
    ∧ (∀ (ops : List Pointers.POp) (m : ConstScoreManager),
        (∀ w, ¬ ConstOccurs ops w) →
          ∀ v, ConstOccurs (literal_to_constant_replacement m ops).2 v →
            v ∈ (literal_to_constant_replacement m ops).1.constants) := by
  have hN : ∀ (m : ConstScoreManager) (v : Int) (n : Nat),
      (m.createN v (n + 1)).constants = insert v m.constants := by
    intro m v n
    induction n with
    | zero => rfl
    | succ k ihk =>
      show (((m.createN v (k + 1)).create v).2).constants = insert v m.constants
      rw [show (((m.createN v (k + 1)).create v).2).constants
            = insert v (m.createN v (k + 1)).constants from rfl, ihk,
        Finset.insert_idem]
  refine ⟨fun _ _ => rfl, fun _ _ => rfl, fun m v n => ⟨hN m v n, ?_⟩,
    fun ops m h v => ltcr_records ops m h v⟩
  rw [hN, Finset.card_eq_one]
  refine ⟨v, ?_⟩
  ext x
  simp only [Finset.mem_filter, Finset.mem_insert, Finset.mem_singleton]
  constructor
  · rintro ⟨-, rfl⟩; rfl
  · rintro rfl; exact ⟨.inl rfl, rfl⟩

/-- C3 witness: interning 7 twice in a fresh manager. -/
theorem const_score_interning_witness :
    (({ objective := "bolt.expr.const", constants := ∅ } :
        ConstScoreManager).createN 7 2).constants
      = insert 7 (∅ : Finset Int)
    ∧ ConstOccurs
        (literal_to_constant_replacement
          { objective := "bolt.expr.const", constants := ∅ }
          [⟨.mul, .score "@s" "obj", .lit 3⟩]).2 3
    ∧ (3 : Int) ∈ (literal_to_constant_replacement
          { objective := "bolt.expr.const", constants := ∅ }
          [⟨.mul, .score "@s" "obj", .lit 3⟩]).1.constants :=
  ⟨(const_score_interning.2.2.1 _ 7 1).1,
   ⟨⟨.mul, .score "@s" "obj", .const 3⟩, by decide, by decide⟩,
   const_score_interning.2.2.2 [⟨.mul, .score "@s" "obj", .lit 3⟩]
     { objective := "bolt.expr.const", constants := ∅ }
     (by
        rintro w ⟨q, hq, hqv⟩
        rw [List.mem_singleton] at hq
        subst hq
        rcases hqv with h | h <;> cases h)
     3 ⟨⟨.mul, .score "@s" "obj", .const 3⟩, by decide, by decide⟩⟩

end BoltExpr

namespace Sources

/-- Classification of a source's NBT read type, as computed by the
`is_numeric_type` / `is_string_type` / `is_array_type` / `is_list_type` /
`is_compound_type` predicates of the `bolt_expressions.typing` module (not
under `src/`); `anyK` stands for any type outside those classes, such as
the default `Any`. -/
inductive NbtKind where
  | numeric | stringK | array | listK | compound | anyK
  deriving DecidableEq, Repr

/-- The class-level accessor capabilities of an `OperatorHandler`
(`sources.py`): whether the handler supports `ListIndex`, `NamedKey` and
`CompoundMatch` accessors.  The base class defaults all three to false. -/
structure HandlerFlags where
  list_index : Bool
  named_key : Bool
  compound_match : Bool
  deriving DecidableEq, Repr

/-- `DataSource.operator_handler`: pick the handler from the source's
readtype.  `NumericOperatorHandler` and `StringOperatorHandler` keep the
base-class flags (all false); `SequenceOperatorHandler` (arrays and lists)
sets only `list_index`; `CompoundOperatorHandler` sets `named_key` and
`compound_match`; `GenericOperatorHandler` (any other readtype) sets all
three. -/
def operatorHandler : NbtKind → HandlerFlags
  | .numeric => ⟨false, false, false⟩
  | .stringK => ⟨false, false, false⟩
  | .array => ⟨true, false, false⟩
  | .listK => ⟨true, false, false⟩
  | .compound => ⟨false, true, true⟩
  | .anyK => ⟨true, true, true⟩

/-- The fields of `DataSource` relevant to accessor checking: target kind,
target, path and write type (`readtype` is defined to be `writetype`). -/
structure DataSource where
  type_ : String
  target : String
  path : List BoltExpr.Accessor
  writetype : NbtKind
  deriving DecidableEq, Repr

/-- `DataSource.readtype` (`sources.py`): returns the writetype. -/
def DataSource.readtype (s : DataSource) : NbtKind := s.writetype

def isListIndexAcc : BoltExpr.Accessor → Bool
  | .listIndex _ => true
  | _ => false

def isCompoundMatchAcc : BoltExpr.Accessor → Bool
  | .compoundMatch _ => true
  | _ => false

def isNamedKeyAcc : BoltExpr.Accessor → Bool
  | .namedKey _ => true
  | _ => false

/-- `DataSource._access` (`sources.py`): walk the accessors of the sub-path
one at a time.  For each accessor the handler chosen from the current
readtype is consulted: a `ListIndex` accessor on a handler without
`list_index`, a `CompoundMatch` accessor without `compound_match`, or a
`NamedKey` accessor without `named_key` raises a `TypeError` (modelled as
`Except.error`); otherwise a new source is built with the accessor appended
to the path and the child write type looked up by `access_type` (a function
of the `bolt_expressions.typing` module, abstracted here as the argument
`at_`), defaulting to `Any` on failure. -/
def access (at_ : NbtKind → BoltExpr.Accessor → Option NbtKind)
    (s : DataSource) : List BoltExpr.Accessor → Except String DataSource
  | [] => .ok s
  | a :: rest =>
    let h := operatorHandler s.readtype
    if isListIndexAcc a && !h.list_index then
      .error "data source of this type is not indexable"
    else if isCompoundMatchAcc a && !h.compound_match then
      .error "data source of this type does not support compound matching"
    else if isNamedKeyAcc a && !h.named_key then
      .error "data source of this type does not have named keys"
    else
      access at_
        { s with
          path := s.path ++ [a]
          writetype := (at_ s.writetype a).getD .anyK } rest

/-- Whether the handler permits the accessor kind. -/
def allowed (h : HandlerFlags) : BoltExpr.Accessor → Bool
  | .listIndex _ => h.list_index
  | .namedKey _ => h.named_key
  | .compoundMatch _ => h.compound_match

/-- Whether the access raised a `TypeError`. -/
def isTypeError : Except String DataSource → Bool
  | .error _ => true
  | .ok _ => false

/-- C7: accessing a child raises a `TypeError` exactly when the accessor
kind is forbidden by the operator handler selected from the source's
readtype — `ListIndex` without `list_index` (e.g. a compound-typed source),
`NamedKey` without `named_key` (e.g. a sequence-typed source),
`CompoundMatch` without `compound_match`; otherwise the access returns a
new `DataSource` with the accessor appended to the path. -/
theorem access_type_errors
    (at_ : NbtKind → BoltExpr.Accessor → Option NbtKind)
    (s : DataSource) (a : BoltExpr.Accessor) :
    (isTypeError (access at_ s [a])
        = !allowed (operatorHandler s.readtype) a)
    ∧ (allowed (operatorHandler s.readtype) a = true →
        access at_ s [a] = .ok { s with
          path := s.path ++ [a]
          writetype := (at_ s.writetype a).getD .anyK })
    ∧ (operatorHandler .compound).list_index = false
    ∧ (operatorHandler .listK).named_key = false
    ∧ (operatorHandler .array).named_key = false := by
  refine ⟨?_, ?_, rfl, rfl, rfl⟩
  · cases a <;>
      cases hli : (operatorHandler s.readtype).list_index <;>
      cases hnk : (operatorHandler s.readtype).named_key <;>
      cases hcm : (operatorHandler s.readtype).compound_match <;>
      simp [access, allowed, isTypeError, isListIndexAcc, isCompoundMatchAcc,
        isNamedKeyAcc, hli, hnk, hcm]
  · intro hall
    cases a <;>
      simp only [allowed] at hall <;>
      simp [access, isListIndexAcc, isCompoundMatchAcc, isNamedKeyAcc, hall]

/-- C7 witness: indexing a compound-typed source raises, a named key on a
list-typed source raises, and a named key on a compound-typed source
appends the accessor. -/
theorem access_type_errors_witness :
    (isTypeError (access (fun _ _ => none)
        ⟨"storage", "ns:x", [], .compound⟩ [.listIndex 0]) = true)
    ∧ (isTypeError (access (fun _ _ => none)
        ⟨"storage", "ns:x", [], .listK⟩ [.namedKey "foo"]) = true)
    ∧ (access (fun _ _ => none)
        ⟨"storage", "ns:x", [], .compound⟩ [.namedKey "foo"]
        = .ok ⟨"storage", "ns:x", [.namedKey "foo"], .anyK⟩) :=
  ⟨(access_type_errors (fun _ _ => none)
      ⟨"storage", "ns:x", [], .compound⟩ (.listIndex 0)).1,
   (access_type_errors (fun _ _ => none)
      ⟨"storage", "ns:x", [], .listK⟩ (.namedKey "foo")).1,
   (access_type_errors (fun _ _ => none)
      ⟨"storage", "ns:x", [], .compound⟩ (.namedKey "foo")).2.1 rfl⟩

end Sources

namespace Facade

/-- The session state of the `Expression` facade (`node.py`) relevant to
init generation: the configured `init_path`, the `called_init` flag
(dataclass default `False`) and the accumulated `init_commands` (default
empty). -/
structure ExprState where
  init_path : String
  called_init : Bool
  init_commands : List String
  deriving DecidableEq, Repr

/-- A fresh `Expression` dataclass: `called_init=False`,
`init_commands=[]`. -/
def Expression.newSession (path : String) : ExprState :=
  ⟨path, false, []⟩

/-- `Expression.init` (`node.py`): injects `function <init_path>` and sets
`called_init`. -/
def Expression.init (e : ExprState) : ExprState × String :=
  ({ e with called_init := true }, "function " ++ e.init_path)

/-- The function artifact written by `ctx.generate` in
`Expression.generate_init`. -/
structure GeneratedFunction where
  path : String
  commands : List String
  prepend_tags : Option (List String)
  deriving DecidableEq, Repr

/-- `Expression.generate_init` (`node.py`): no output at all when
`init_commands` is empty (`if not self.init_commands: return`); otherwise
generate the function at `init_path` with the accumulated commands,
prepending the `minecraft:load` tag only when `init()` was never called. -/
def Expression.generate_init (e : ExprState) : Option GeneratedFunction :=
  if e.init_commands = [] then none
  else some ⟨e.init_path, e.init_commands,
    if e.called_init then none else some ["minecraft:load"]⟩

/-- C10: `generate_init` produces no output exactly when no init command
was recorded; with at least one command it generates the function at the
configured path with the `minecraft:load` prepend tag if and only if
`init()` was never called during the session — `init()` being the only
operation setting `called_init`, which starts out false. -/
theorem generate_init_spec (e : ExprState) :
    (e.init_commands = [] → Expression.generate_init e = none)
    ∧ (e.init_commands ≠ [] →
        Expression.generate_init e = some ⟨e.init_path, e.init_commands,
          if e.called_init then none else some ["minecraft:load"]⟩)
    ∧ (∀ g, Expression.generate_init e = some g →
        (g.prepend_tags = some ["minecraft:load"] ↔ e.called_init = false))
    ∧ (Expression.init e).1.called_init = true
    ∧ (∀ p, (Expression.newSession p).called_init = false
        ∧ (Expression.newSession p).init_commands = []) := by
  refine ⟨fun h => ?_, fun h => ?_, fun g hg => ?_, rfl, fun p => ⟨rfl, rfl⟩⟩
  · simp [Expression.generate_init, h]
  · simp [Expression.generate_init, h]
  · unfold Expression.generate_init at hg
    split at hg
    · cases hg
    · cases hg
      cases hc : e.called_init <;> simp [hc]

/-- C10 witness: an empty session yields nothing; one recorded command
yields the tagged function; after `init()` the tag is dropped. -/
theorem generate_init_spec_witness :
    Expression.generate_init ⟨"init_expressions", false, []⟩ = none
    ∧ Expression.generate_init ⟨"init_expressions", false, ["cmd"]⟩
        = some ⟨"init_expressions", ["cmd"], some ["minecraft:load"]⟩
    ∧ Expression.generate_init ⟨"init_expressions", true, ["cmd"]⟩
        = some ⟨"init_expressions", ["cmd"], none⟩
    ∧ ((Expression.generate_init ⟨"init_expressions", false, ["cmd"]⟩).map
        GeneratedFunction.prepend_tags = some (some ["minecraft:load"])) :=
  ⟨(generate_init_spec ⟨"init_expressions", false, []⟩).1 rfl,
   (generate_init_spec ⟨"init_expressions", false, ["cmd"]⟩).2.1 (by decide),
   (generate_init_spec ⟨"init_expressions", true, ["cmd"]⟩).2.1 (by decide),
   by
    rw [(generate_init_spec ⟨"init_expressions", false, ["cmd"]⟩).2.1 (by decide)]
    rfl⟩

end Facade

namespace AstChecker

/-- A command argument node as seen by `ConstantScoreChecker.command`
(`ast.py`): an `AstObjective` (compared by value to the checker's
`objective_node`), an `AstPlayerName` (whose textual value is matched
against the pattern), or any other AST node. -/
inductive AstArg where
  | objective (value : String)
  | playerName (value : String)
  | other (tag : String)
  deriving DecidableEq, Repr

/-- A word character of the regex `\b` boundary (ASCII fragment of Python's
`\w`): letters, digits or underscore. -/
def isWordChar (c : Char) : Bool :=
  c.isAlphanum || c = '_'

def digitsToNat (cs : List Char) : Nat :=
  cs.foldl (fun acc c => acc * 10 + (c.toNat - '0'.toNat)) 0

/-- The compiled pattern `^\$([-+]?\d+)\b` applied with `.match` and the
parse `int(match.group(1))`: the string must start with `$`, then an
optional sign and at least one digit, and the character right after the
maximal digit run (if any) must not be a word character (`\b`; a shorter
digit run can never satisfy the boundary since digits are word
characters).  Returns the signed integer of group 1. -/
def matchConst (s : String) : Option Int :=
  match s.data with
  | '$' :: rest =>
    let signed : Bool × List Char :=
      match rest with
      | c :: t => if c = '-' then (true, t) else if c = '+' then (false, t) else (false, rest)
      | [] => (false, [])
    let digits := signed.2.takeWhile Char.isDigit
    if digits.isEmpty then none
    else
      let value : Int := if signed.1 then -(digitsToNat digits : Int) else (digitsToNat digits : Int)
      match signed.2.drop digits.length with
      | [] => some value
      | c :: _ => if isWordChar c then none else some value
  | _ => none

/-- `node.arguments.index(self.objective_node)`: index of the first
argument equal to the checker's objective node, or `none` when the
preceding membership test fails. -/
def firstObjIdx (obj : String) : List AstArg → Option Nat
  | [] => none
  | a :: rest =>
    if a = .objective obj then some 0
    else (firstObjIdx obj rest).map (· + 1)

/-- `node.arguments[i - 1]` with Python indexing: for `i = 0` this is
`arguments[-1]`, the last argument. -/
def pyPrev (args : List AstArg) (i : Nat) : Option AstArg :=
  if i = 0 then args.getLast? else args.get? (i - 1)

/-- `ConstantScoreChecker.command` (`ast.py`): if the objective node occurs
among the arguments, look at the argument at Python index `i - 1` of its
first occurrence `i`; when that argument is a player name whose value
matches the pattern, parse the integer and register a constant for it via
the callback (the registered value is returned; `none` means the callback
is not invoked). -/
def checkCommand (obj : String) (args : List AstArg) : Option Int :=
  match firstObjIdx obj args with
  | none => none
  | some i =>
    match pyPrev args i with
    | some (.playerName v) => matchConst v
    | _ => none

/-- The shape described by the claim, written from its words: some
occurrence of the const objective is immediately preceded by a player name
matching the pattern. -/
def claimShape (obj : String) (args : List AstArg) : Bool :=
  (List.range args.length).any fun i =>
    decide (0 < i) && decide (args.get? i = some (.objective obj)) &&
      (match args.get? (i - 1) with
       | some (.playerName v) => (matchConst v).isSome
       | _ => false)

/-- C8 counterexample: a command whose FIRST argument is the const
objective and whose LAST argument is the matching player name `$5` has no
argument immediately preceding the objective — it does not match the
claim's shape — and yet the checker registers 5, because Python's
`arguments[i - 1]` with `i = 0` wraps around to the last argument. -/
theorem constant_checker_wraparound :
    checkCommand "bolt.expr.const"
        [.objective "bolt.expr.const", .playerName "$5"] = some 5
    ∧ claimShape "bolt.expr.const"
        [.objective "bolt.expr.const", .playerName "$5"] = false := by
  constructor
  · rfl
  · rfl

theorem firstObjIdx_eq_some (obj : String) :
    ∀ (args : List AstArg) (i : Nat),
      firstObjIdx obj args = some i ↔
        (args.get? i = some (.objective obj)
          ∧ ∀ j < i, args.get? j ≠ some (.objective obj)) := by
  intro args
  induction args with
  | nil =>
    intro i
    constructor
    · intro h; cases h
    · rintro ⟨h, -⟩; cases h
  | cons a rest ih =>
    intro i
    rw [firstObjIdx]
    split
    · next heq =>
      subst heq
      constructor
      · rintro ⟨rfl⟩
        exact ⟨rfl, fun j hj => absurd hj (Nat.not_lt_zero j)⟩
      · rintro ⟨hi, hmin⟩
        cases i with
        | zero => rfl
        | succ k =>
          exact absurd rfl (hmin 0 (Nat.succ_pos k))
    · next hne =>
      constructor
      · intro h
        obtain ⟨k, hk, rfl⟩ := Option.map_eq_some'.mp h
        obtain ⟨hget, hmin⟩ := (ih k).mp hk
        refine ⟨hget, ?_⟩
        intro j hj
        cases j with
        | zero =>
          simp only [List.get?]
          intro hc
          exact hne (Option.some.inj hc)
        | succ j' =>
          exact hmin j' (Nat.lt_of_succ_lt_succ hj)
      · rintro ⟨hi, hmin⟩
        cases i with
        | zero =>
          exact absurd (Option.some.inj hi) hne
        | succ k =>
          rw [(ih k).mpr ⟨hi, fun j hj => hmin (j + 1) (Nat.succ_lt_succ hj)⟩]
          rfl

/-- C8 amended: the checker examines only the first occurrence `i` of the
const objective among the arguments, and registers the parsed integer
exactly when the argument at Python index `i - 1` — the immediately
preceding argument when `i > 0`, wrapping around to the last argument when
the objective is the first argument — is a player name matching
`^\$([-+]?\d+)\b`; commands without such an occurrence trigger no
registration. -/
theorem constant_checker_registration (obj : String) (args : List AstArg) (v : Int) :
    checkCommand obj args = some v ↔
      ∃ i, (args.get? i = some (.objective obj)
            ∧ ∀ j < i, args.get? j ≠ some (.objective obj))
        ∧ ∃ s, pyPrev args i = some (.playerName s) ∧ matchConst s = some v := by
  unfold checkCommand
  constructor
  · intro h
    cases hidx : firstObjIdx obj args with
    | none => rw [hidx] at h; cases h
    | some i =>
      rw [hidx] at h
      dsimp only at h
      refine ⟨i, (firstObjIdx_eq_some obj args i).mp hidx, ?_⟩
      cases hp : pyPrev args i with
      | none => rw [hp] at h; cases h
      | some a =>
        rw [hp] at h
        cases a with
        | playerName s => exact ⟨s, rfl, h⟩
        | objective s => cases h
        | other s => cases h
  · rintro ⟨i, hspec, s, hprev, hmatch⟩
    rw [(firstObjIdx_eq_some obj args i).mpr hspec]
    dsimp only
    rw [hprev]
    exact hmatch

end AstChecker

